import Mathlib

/-!
Verification development for `RIVER/make_gene_indiv_variants.py`.

The script is a batch pipeline over in-memory tables:
coordinate-key normalisation, per-table deduplication, an interval
matcher assigning frequency records to gene proximity windows, a mutual
`isin` alignment of the frequency table and the genotype-call table, a
major/minor allele resolver, a genotype scan accumulating per
(gene, individual) variant descriptors, and a sorted report writer.

Python strings are modelled as `List Char` (`PyStr`); Python string
comparison is code-point lexicographic, which is exactly the
`LinearOrder (List Char)` order with `Char`'s code-point order.
Python `float` values arising from `float(x)` on decimal literals are
modelled as exact decimals (`Dec`); conversion to binary float is
monotone and maps equal decimals to equal floats, so the order
comparisons the script performs coincide with the exact ones used
here.  Fallible operations (tuple destructuring, out-of-range
indexing, mismatched-length column insertion) are modelled in
`Option`: `none` is a crash.
-/

namespace GIV

/-! ## Strings, decimals, deduplication -/

/-- Python strings, modelled as lists of characters. -/
abbrev PyStr := List Char

/-- `s.split(c)` for a single-character separator: the list of maximal
runs between occurrences of `c`.  Mirrors Python `str.split(":")`. -/
def splitOnChar (c : Char) : List Char → List (List Char)
  | [] => [[]]
  | x :: xs =>
    if x = c then [] :: splitOnChar c xs
    else
      match splitOnChar c xs with
      | [] => [[x]]
      | p :: ps => (x :: p) :: ps

/-- Decimal digit string to a natural number (`none` on empty or
non-digit input), for modelling Python `float` parsing of the
frequency suffixes. -/
def digitsToNat? : List Char → Option Nat
  | [] => none
  | ds =>
    if ds.all (fun d => d.isDigit) then
      some (ds.foldl (fun acc d => 10 * acc + (d.toNat - 48)) 0)
    else none

/-- An exact decimal value `mant / 10 ^ scale`, the result of `float`
on a decimal literal. -/
structure Dec where
  mant : Nat
  scale : Nat
deriving DecidableEq, Repr

/-- The exact rational value of a parsed decimal. -/
def Dec.toRat (d : Dec) : ℚ := (d.mant : ℚ) / (10 : ℚ) ^ d.scale

/-- Strict order on parsed decimals, by cross-multiplication. -/
def Dec.lt (a b : Dec) : Bool :=
  decide (a.mant * 10 ^ b.scale < b.mant * 10 ^ a.scale)

/-- `float(s)` on the decimal strings the script feeds it
(`"5"`, `"5.0"`, `"0.9"`, …), as an exact decimal. -/
def parseFloat? (s : PyStr) : Option Dec :=
  match splitOnChar '.' s with
  | [w] => (digitsToNat? w).map (fun n => ⟨n, 0⟩)
  | [w, f] =>
    match digitsToNat? w, digitsToNat? f with
    | some n, some m => some ⟨n * 10 ^ f.length + m, f.length⟩
    | _, _ => none
  | _ => none

/-- `str(n)` for the integer positions in scope. -/
def intStr (i : Int) : PyStr :=
  if i < 0 then '-' :: Nat.toDigits 10 i.natAbs else Nat.toDigits 10 i.natAbs

section DedupDefs

variable {α K : Type} [DecidableEq K]

/-- Worker for `drop_duplicates`: keep a row iff its key was not seen
before (pandas default `keep="first"`). -/
def dedupeOnAux (key : α → K) : List α → List K → List α
  | [], _ => []
  | x :: xs, seen =>
    if key x ∈ seen then dedupeOnAux key xs seen
    else x :: dedupeOnAux key xs (key x :: seen)

/-- `DataFrame.drop_duplicates(keycol)`: first occurrence per distinct
key, original row order otherwise preserved. -/
def dedupeOn (key : α → K) (l : List α) : List α :=
  dedupeOnAux key l []

end DedupDefs

/-! ## Data model -/

/-- A row of the proximity-window (TSS BED) table:
`chrom, start, stop, gene`, 0-based coordinates. -/
structure WindowRow where
  chrom : PyStr
  start : Int
  stop : Int
  gene : PyStr
deriving DecidableEq, Repr

/-- A row of the rare-variant allele-frequency table:
`chrom, pos (1-based), n_alleles, n_chr, ref, alt`, where `ref`/`alt`
are composite `"letters:number"` strings. -/
structure FreqRow where
  chrom : PyStr
  pos : Int
  n_alleles : Int
  n_chr : Int
  ref : PyStr
  alt : PyStr
deriving DecidableEq, Repr

/-- A per-variant row of the genotype-call (VCF) table:
`CHROM, POS, REF, ALT` (single ALT, biallelic). -/
structure VcfRow where
  chrom : PyStr
  pos : Int
  ref : PyStr
  alt : PyStr
deriving DecidableEq, Repr

/-- The `"$" + chrom + ":$" + str(pos)` coordinate key of a frequency row. -/
def freqKey (r : FreqRow) : PyStr :=
  '$' :: (r.chrom ++ ':' :: '$' :: intStr r.pos)

/-- The `"$" + chrom + ":$" + str(pos)` coordinate key of a call row. -/
def vcfKey (v : VcfRow) : PyStr :=
  '$' :: (v.chrom ++ ':' :: '$' :: intStr v.pos)

/-! ## Interval Matcher

`rare_var_chr["pos0"].between(start, row["stop"] + 1)`: pandas
`between` is inclusive on BOTH ends, so the effective test is
`start ≤ pos0 ∧ pos0 ≤ stop + 1`.  Records and windows are compared
only within the same chromosome (the per-`chr` partition of the
loop). -/

/-- The pandas `between(start, row["stop"] + 1)` test on a record's
0-based position, exactly as run inside one chromosome partition. -/
def betweenTest (w : WindowRow) (r : FreqRow) : Bool :=
  decide (w.start ≤ r.pos - 1) && decide (r.pos - 1 ≤ w.stop + 1)

/-- The effective "window `w` is compared against record `r` and
matches" predicate: same chromosome and the `between` test. -/
def matchTest (w : WindowRow) (r : FreqRow) : Bool :=
  (w.chrom == r.chrom) && betweenTest w r

/-- `if x not in gene_dict.keys(): gene_dict[x] = row["gene"]` —
insert a (record-label, gene) pair unless the label is already bound. -/
def assignRecord (gd : List (Nat × PyStr)) (g : PyStr) (x : Nat) :
    List (Nat × PyStr) :=
  if (gd.lookup x).isSome then gd else gd ++ [(x, g)]

/-- Labels of the records of one chromosome partition matched by one
window (the `rare_var_chr[idx_bool].index` list). -/
def matchedIdx (w : WindowRow) (rvChr : List (Nat × FreqRow)) : List Nat :=
  (rvChr.filter (fun p => betweenTest w p.2)).map (fun p => p.1)

/-- Process one window of a chromosome partition. -/
def assignWindow (gd : List (Nat × PyStr)) (w : WindowRow)
    (rvChr : List (Nat × FreqRow)) : List (Nat × PyStr) :=
  (matchedIdx w rvChr).foldl (fun gd x => assignRecord gd w.gene x) gd

/-- Process all windows of one chromosome partition, in table order. -/
def assignChr (gd : List (Nat × PyStr)) (ws : List (WindowRow))
    (rvChr : List (Nat × FreqRow)) : List (Nat × PyStr) :=
  ws.foldl (fun gd w => assignWindow gd w rvChr) gd

/-- `list(TSS.drop_duplicates("chrom")["chrom"])`: the distinct
chromosomes of the window table, in first-appearance order. -/
def chrListOf (ws : List WindowRow) : List PyStr :=
  (dedupeOn WindowRow.chrom ws).map WindowRow.chrom

/-- One iteration of the outer `for chr in chr_list` loop: restrict
the window table and the frequency table to chromosome `c` and process
the restricted windows. -/
def chrStep (ws : List WindowRow) (rvs : List (Nat × FreqRow))
    (gd : List (Nat × PyStr)) (c : PyStr) : List (Nat × PyStr) :=
  assignChr gd (ws.filter (fun w => w.chrom == c))
    (rvs.filter (fun p => p.2.chrom == c))

/-- The full interval-matcher pass: `gene_dict`, a label → gene map
built chromosome by chromosome, window by window. -/
def buildGeneDict (ws : List WindowRow) (rvs : List (Nat × FreqRow)) :
    List (Nat × PyStr) :=
  (chrListOf ws).foldl (chrStep ws rvs) []

/-! ## Allele Resolver -/

/-- Result of the major/minor determination: the major allele letters,
the minor (rare) allele letters, and the rare allele index
(`1` = alt carries the rare allele, `0` = ref does). -/
structure Resolved where
  major : PyStr
  minor : PyStr
  rare : Int
deriving DecidableEq, Repr

/-- Lines 141–153: split `ref`/`alt` on `":"`, parse the numeric
suffixes with `float`, and compare.  `ref[1] > alt[1]` selects ref as
major and alt as minor with rare index 1; otherwise (including exact
ties) alt is major, ref is minor, rare index 0.  A missing or
non-numeric suffix is a crash (`none`). -/
def resolveAllele (ref alt : PyStr) : Option Resolved :=
  match (splitOnChar ':' ref).get? 1, (splitOnChar ':' alt).get? 1 with
  | some r1s, some a1s =>
    match parseFloat? r1s, parseFloat? a1s with
    | some r1, some a1 =>
      if Dec.lt a1 r1 then
        some ⟨(splitOnChar ':' ref).headI, (splitOnChar ':' alt).headI, 1⟩
      else
        some ⟨(splitOnChar ':' alt).headI, (splitOnChar ':' ref).headI, 0⟩
    | _, _ => none
  | _, _ => none

/-- The parsed numeric suffix of a `"letters:number"` field. -/
def suffixVal? (s : PyStr) : Option Dec :=
  ((splitOnChar ':' s).get? 1).bind parseFloat?

/-! ## Table Aligner

Lines 128–132: two `isin` filters (the second against the
already-filtered frequency table), then a positional insert of the
gene column into the call table (`.values`), which requires equal
lengths. -/

/-- A gene-annotated labelled frequency row. -/
abbrev AnnRow := PyStr × (Nat × FreqRow)

/-- Coordinate key of a gene-annotated frequency row. -/
def annKey (gp : AnnRow) : PyStr := freqKey gp.2.2

/-- `rare_var = rare_var[rare_var["chrom:pos"].isin(vcf_df["chrom:pos"])]`. -/
def alignFreqSide (rvAnn : List AnnRow) (vdf : List (Nat × VcfRow)) :
    List AnnRow :=
  rvAnn.filter (fun gp => (vdf.map (fun q => vcfKey q.2)).contains (annKey gp))

/-- `vcf_df = vcf_df[vcf_df["chrom:pos"].isin(rare_var["chrom:pos"])]`,
where `rare_var` is the already-filtered table. -/
def alignCallSide (rvAnn : List AnnRow) (vdf : List (Nat × VcfRow)) :
    List (Nat × VcfRow) :=
  vdf.filter
    (fun q => ((alignFreqSide rvAnn vdf).map annKey).contains (vcfKey q.2))

/-- `vcf_df.insert(0, "gene", rare_var["gene"].values)`: positional
pairing of the two aligned tables; a length mismatch is a crash. -/
def insertGenes (rv2 : List AnnRow) (vdf2 : List (Nat × VcfRow)) :
    Option (List (AnnRow × (Nat × VcfRow))) :=
  if rv2.length = vdf2.length then some (rv2.zip vdf2) else none

/-! ## Genotype Scanner and accumulator -/

/-- Append `v` to the list bound to `k`, creating the binding at the
end on first use (Python dict insertion order). -/
def accAppend (acc : List (PyStr × List PyStr)) (k : PyStr) (v : PyStr) :
    List (PyStr × List PyStr) :=
  match acc with
  | [] => [(k, [v])]
  | (k', vs) :: rest =>
    if k' = k then (k', vs ++ [v]) :: rest else (k', vs) :: accAppend rest k v

/-- The `$chrom:$position:$major_allele:$variant_allele` descriptor,
built from the call table's own chrom/pos. -/
def descriptor (v : VcfRow) (res : Resolved) : PyStr :=
  '$' :: (v.chrom ++ ':' :: '$' :: (intStr v.pos ++
    ':' :: '$' :: (res.major ++ ':' :: '$' :: res.minor)))

/-- Scan one aligned (frequency, call) row pair: resolve major/minor,
fetch the genotype matrix row by the call row's label, and for every
sample carrying the rare allele index append the descriptor under
`gene + ":" + indiv`. -/
def scanOne (genotype : List (List (List Int))) (samples : List PyStr)
    (acc : List (PyStr × List PyStr)) (item : AnnRow × (Nat × VcfRow)) :
    Option (List (PyStr × List PyStr)) := do
  let (⟨g, _, fr⟩, ⟨label, vr⟩) := item
  let res ← resolveAllele fr.ref fr.alt
  let gtRow ← genotype.get? label
  gtRow.enum.foldlM
    (fun acc ji =>
      if ji.2.contains res.rare then do
        let indiv ← samples.get? ji.1
        some (accAppend acc (g ++ ':' :: indiv) (descriptor vr res))
      else
        some acc)
    acc

/-- The whole scanner loop over the aligned row pairs. -/
def scanAll (genotype : List (List (List Int))) (samples : List PyStr)
    (pairs : List (AnnRow × (Nat × VcfRow))) :
    Option (List (PyStr × List PyStr)) :=
  pairs.foldlM (scanOne genotype samples) []

/-! ## Report Writer -/

/-- The fixed header line (without the trailing newline). -/
def headerLine : PyStr := "gene\tindividual\tvariants".toList

/-- One output row for key `k`: the two-way `split(":")` destructuring
(crash unless exactly two parts), tab-joined with the comma-joined
variant list. -/
def rowFor (acc : List (PyStr × List PyStr)) (k : PyStr) : Option PyStr :=
  match splitOnChar ':' k with
  | [g, i] =>
    some (g ++ '\t' :: (i ++ '\t' ::
      List.intercalate [','] (((acc.lookup k).getD []))))
  | _ => none

/-- Total form of one output row, defined when the key splits in two
parts. -/
def rowVal (acc : List (PyStr × List PyStr)) (k : PyStr) : PyStr :=
  (splitOnChar ':' k).headI ++ '\t' :: ((splitOnChar ':' k).getD 1 [] ++
    '\t' :: List.intercalate [','] ((acc.lookup k).getD []))

/-- Lines 184–195: sort the accumulator keys lexicographically
(Python `list.sort` on strings = code-point lexicographic order) and
emit the header followed by one row per key. -/
def writeReport (acc : List (PyStr × List PyStr)) : Option (List PyStr) := do
  let sorted := List.insertionSort (fun a b : PyStr => a ≤ b)
    (acc.map (fun p => p.1))
  let rows ← sorted.mapM (rowFor acc)
  some (headerLine :: rows)

/-! ## Full pipeline -/

/-- The whole script after input parsing: takes the already-parsed
outlier gene list, window table, frequency table, call-row table,
genotype matrix and sample list, and produces the output lines
(header first), or `none` on a crash. -/
def runPipeline (outliers : List PyStr) (tss : List WindowRow)
    (rareVar : List FreqRow) (vcfRows : List VcfRow)
    (genotype : List (List (List Int))) (samples : List PyStr) :
    Option (List PyStr) := do
  -- line 69: dedup the frequency table on its chrom:pos key
  let rv1 := dedupeOn (fun p => freqKey p.2) rareVar.enum
  -- line 72: restrict windows to outlier genes
  let tssF := tss.filter (fun w => outliers.contains w.gene)
  -- lines 77–94: interval matcher
  let gd := buildGeneDict tssF rv1
  -- lines 96–97: sorted label list
  let labels := List.insertionSort (fun a b : Nat => a ≤ b)
    (gd.map (fun p => p.1))
  -- lines 98–102: rows by label, gene column attached
  let rvAnn ← labels.mapM (fun i => do
    let p ← rv1.find? (fun p => p.1 == i)
    let g ← gd.lookup i
    some ((g, p) : AnnRow))
  -- lines 116–117: dedup the call table on its chrom:pos key
  let vdf1 := dedupeOn (fun p => vcfKey p.2) vcfRows.enum
  -- lines 128–129: mutual isin alignment
  let rv2 := alignFreqSide rvAnn vdf1
  let vdf2 := alignCallSide rvAnn vdf1
  -- line 132: positional gene insert (crash on length mismatch)
  let pairs ← insertGenes rv2 vdf2
  -- lines 139–181: genotype scan
  let acc ← scanAll genotype samples pairs
  -- lines 184–195: report
  writeReport acc

/-! ## Concrete fixtures used by witnesses and counterexamples -/

/-- Window `c:[100,200)` bound to gene G1. -/
def c1Window : WindowRow := ⟨"c".toList, 100, 200, "G1".toList⟩

/-- A record at 1-based position 202, i.e. `pos0 = 201 = stop + 1`. -/
def c1RecordPastStop : FreqRow :=
  ⟨"c".toList, 202, 2, 4, "A:0.9".toList, "T:0.1".toList⟩

/-- A record at 1-based position 150, i.e. `pos0 = 149` inside the
window. -/
def c1RecordInside : FreqRow :=
  ⟨"c".toList, 150, 2, 4, "A:0.9".toList, "T:0.1".toList⟩

/-- Gene-annotated frequency rows with keys `$c:$1`, `$c:$2`
(in that order). -/
def c3Freq : List AnnRow :=
  [("G".toList, (0, ⟨"c".toList, 1, 2, 4, "A:0.9".toList, "T:0.1".toList⟩)),
   ("G".toList, (1, ⟨"c".toList, 2, 2, 4, "A:0.9".toList, "T:0.1".toList⟩))]

/-- Call rows with the same two keys in the opposite order. -/
def c3VcfCrossed : List (Nat × VcfRow) :=
  [(0, ⟨"c".toList, 2, "A".toList, "T".toList⟩),
   (1, ⟨"c".toList, 1, "A".toList, "T".toList⟩)]

/-- Call rows with the same two keys in the same order. -/
def c3VcfSame : List (Nat × VcfRow) :=
  [(0, ⟨"c".toList, 1, "A".toList, "T".toList⟩),
   (1, ⟨"c".toList, 2, "A".toList, "T".toList⟩)]

/-- Two windows for different genes overlapping the same position. -/
def c4Windows : List WindowRow :=
  [⟨"c".toList, 100, 200, "G1".toList⟩, ⟨"c".toList, 150, 250, "G2".toList⟩]

/-- One record at 1-based position 180, overlapped by both windows. -/
def c4Records : List (Nat × FreqRow) :=
  [(0, ⟨"c".toList, 180, 2, 4, "A:0.9".toList, "T:0.1".toList⟩)]

/-- End-to-end scenario: outlier gene G1, window `chrom1:[100,200)`. -/
def c5Tss : List WindowRow := [⟨"chrom1".toList, 100, 200, "G1".toList⟩]

/-- One frequency record at `chrom1:150`, ref `A:0.9`, alt `T:0.1`. -/
def c5Freq : List FreqRow :=
  [⟨"chrom1".toList, 150, 2, 4, "A:0.9".toList, "T:0.1".toList⟩]

/-- One call row at the same coordinate. -/
def c5Vcf : List VcfRow := [⟨"chrom1".toList, 150, "A".toList, "T".toList⟩]

/-- Genotypes: sample1 carries the alt allele, sample2 does not. -/
def c5Genotype : List (List (List Int)) := [[[0, 1], [0, 0]]]

/-- The two sample names. -/
def c5Samples : List PyStr := ["sample1".toList, "sample2".toList]

/-- An accumulator with two well-formed keys, out of order. -/
def c6Acc : List (PyStr × List PyStr) :=
  [("B:y".toList, ["v1".toList]), ("A:x".toList, ["v2".toList])]

/-- A window table whose genes are disjoint from the outlier list. -/
def c7Tss : List WindowRow := [⟨"c".toList, 0, 10, "G9".toList⟩]

/-- A frequency list and a call list for the zero-outlier scenario. -/
def c7Freq : List FreqRow :=
  [⟨"c".toList, 5, 2, 4, "A:0.9".toList, "T:0.1".toList⟩]

/-- One call row for the zero-outlier scenario. -/
def c7Vcf : List VcfRow := [⟨"c".toList, 5, "A".toList, "T".toList⟩]

/-- A labelled frequency list with a duplicated coordinate key. -/
def c8List : List (Nat × FreqRow) :=
  [(0, ⟨"c".toList, 5, 2, 4, "A:0.9".toList, "T:0.1".toList⟩),
   (1, ⟨"c".toList, 5, 2, 4, "G:0.8".toList, "C:0.2".toList⟩),
   (2, ⟨"c".toList, 7, 2, 4, "A:0.7".toList, "T:0.3".toList⟩)]

/-- An accumulator whose single key has a `:` inside the gene part. -/
def c10Acc : List (PyStr × List PyStr) :=
  [("G:1".toList ++ ':' :: "ind".toList, ["v".toList])]

/-- Gene-annotated frequency rows with distinct keys (C9 witness). -/
def c9Freq : List AnnRow :=
  [("G".toList, (0, ⟨"c".toList, 1, 2, 4, "A:0.9".toList, "T:0.1".toList⟩)),
   ("G".toList, (1, ⟨"c".toList, 3, 2, 4, "A:0.9".toList, "T:0.1".toList⟩))]

/-- Call rows sharing one key with `c9Freq` (C9 witness). -/
def c9Vcf : List (Nat × VcfRow) :=
  [(0, ⟨"c".toList, 3, "A".toList, "T".toList⟩),
   (1, ⟨"c".toList, 9, "A".toList, "T".toList⟩)]

/-! ## String lemmas -/

theorem splitOnChar_ne_nil (c : Char) (s : List Char) : splitOnChar c s ≠ [] := by
  induction s with
  | nil => simp [splitOnChar]
  | cons x xs ih =>
    simp only [splitOnChar]
    split
    · simp
    · cases h : splitOnChar c xs <;> simp

/-- Splitting distributes over a separator occurrence. -/
theorem splitOnChar_append (c : Char) (a b : List Char) :
    splitOnChar c (a ++ c :: b) = splitOnChar c a ++ splitOnChar c b := by
  induction a with
  | nil =>
    simp [splitOnChar]
  | cons x xs ih =>
    by_cases hx : x = c
    · simp [splitOnChar, hx, ih]
    · simp only [List.cons_append, splitOnChar, hx, if_false]
      simp only [List.append_eq]
      rw [ih]
      cases h : splitOnChar c xs with
      | nil => exact absurd h (splitOnChar_ne_nil c xs)
      | cons p ps => simp

/-- A separator occurrence forces at least two parts. -/
theorem splitOnChar_length_ge_two (c : Char) (s : List Char) (h : c ∈ s) :
    2 ≤ (splitOnChar c s).length := by
  induction s with
  | nil => cases h
  | cons x xs ih =>
    simp only [splitOnChar]
    by_cases hx : x = c
    · simp only [hx, if_true, List.length_cons]
      have := List.length_pos.mpr (splitOnChar_ne_nil c xs)
      omega
    · have hmem : c ∈ xs := by
        rcases List.mem_cons.mp h with h1 | h1
        · exact absurd h1.symm hx
        · exact h1
      simp only [hx, if_false]
      cases hsp : splitOnChar c xs with
      | nil => exact absurd hsp (splitOnChar_ne_nil c xs)
      | cons p ps =>
        have := ih hmem
        rw [hsp] at this
        simpa using this

/-- The cross-multiplication order on decimals is the rational order. -/
theorem Dec.lt_iff_toRat_lt (a b : Dec) :
    Dec.lt a b = true ↔ a.toRat < b.toRat := by
  have ha : (0 : ℚ) < (10 : ℚ) ^ a.scale := by positivity
  have hb : (0 : ℚ) < (10 : ℚ) ^ b.scale := by positivity
  rw [Dec.lt, decide_eq_true_iff, Dec.toRat, Dec.toRat,
    div_lt_div_iff₀ ha hb]
  rw [show ((a.mant : ℚ) * (10 : ℚ) ^ b.scale
        = ((a.mant * 10 ^ b.scale : Nat) : ℚ)) by push_cast; ring,
    show ((b.mant : ℚ) * (10 : ℚ) ^ a.scale
        = ((b.mant * 10 ^ a.scale : Nat) : ℚ)) by push_cast; ring]
  exact_mod_cast Iff.rfl

/-! ## Deduplicator lemmas -/

section DedupLemmas

variable {α K : Type} [DecidableEq K]

theorem dedupeOnAux_sublist (key : α → K) (l : List α) (seen : List K) :
    (dedupeOnAux key l seen).Sublist l := by
  induction l generalizing seen with
  | nil => simp [dedupeOnAux]
  | cons x xs ih =>
    simp only [dedupeOnAux]
    split
    · exact (ih seen).cons x
    · exact (ih (key x :: seen)).cons₂ x

theorem dedupeOn_sublist (key : α → K) (l : List α) :
    (dedupeOn key l).Sublist l :=
  dedupeOnAux_sublist key l []

theorem dedupeOnAux_mem_first [BEq K] [LawfulBEq K] (key : α → K) (l : List α)
    (seen : List K) (x : α) (hx : x ∈ dedupeOnAux key l seen) :
    key x ∉ seen ∧ l.find? (fun y => key y == key x) = some x := by
  induction l generalizing seen with
  | nil => cases hx
  | cons a l' ih =>
    simp only [dedupeOnAux] at hx
    by_cases ha : key a ∈ seen
    · rw [if_pos ha] at hx
      obtain ⟨hns, hfind⟩ := ih seen hx
      refine ⟨hns, ?_⟩
      rw [List.find?_cons]
      have : (key a == key x) = false := by
        rcases h : key a == key x with _ | _
        · rfl
        · exact absurd (eq_of_beq h ▸ ha) hns
      rw [this]
      exact hfind
    · rw [if_neg ha] at hx
      rcases List.mem_cons.mp hx with rfl | hx'
      · refine ⟨ha, ?_⟩
        rw [List.find?_cons]
        simp
      · obtain ⟨hns, hfind⟩ := ih (key a :: seen) hx'
        have hne : ¬ key x = key a := fun h => hns (h ▸ List.mem_cons_self _ _)
        have hns' : key x ∉ seen := fun h => hns (List.mem_cons_of_mem _ h)
        refine ⟨hns', ?_⟩
        rw [List.find?_cons]
        have : (key a == key x) = false := by
          rcases h : key a == key x with _ | _
          · rfl
          · exact absurd (eq_of_beq h).symm hne
        rw [this]
        exact hfind

/-- Every surviving row is the first row of the input carrying its key. -/
theorem dedupeOn_mem_first [BEq K] [LawfulBEq K] (key : α → K) (l : List α)
    (x : α) (hx : x ∈ dedupeOn key l) :
    l.find? (fun y => key y == key x) = some x :=
  (dedupeOnAux_mem_first key l [] x hx).2

theorem dedupeOnAux_idem (key : α → K) (l : List α) (seen : List K) :
    dedupeOnAux key (dedupeOnAux key l seen) seen = dedupeOnAux key l seen := by
  induction l generalizing seen with
  | nil => simp [dedupeOnAux]
  | cons x xs ih =>
    simp only [dedupeOnAux]
    by_cases hx : key x ∈ seen
    · rw [if_pos hx, ih]
    · rw [if_neg hx]
      simp only [dedupeOnAux, if_neg hx]
      rw [ih]

/-- Deduplication is idempotent. -/
theorem dedupeOn_idem (key : α → K) (l : List α) :
    dedupeOn key (dedupeOn key l) = dedupeOn key l :=
  dedupeOnAux_idem key l []

theorem dedupeOnAux_nodup_keys (key : α → K) (l : List α) (seen : List K) :
    ((dedupeOnAux key l seen).map key).Nodup ∧
      ∀ k ∈ (dedupeOnAux key l seen).map key, k ∉ seen := by
  induction l generalizing seen with
  | nil => simp [dedupeOnAux]
  | cons x xs ih =>
    simp only [dedupeOnAux]
    by_cases hx : key x ∈ seen
    · rw [if_pos hx]; exact ih seen
    · rw [if_neg hx]
      obtain ⟨hnd, hout⟩ := ih (key x :: seen)
      refine ⟨?_, ?_⟩
      · simp only [List.map_cons, List.nodup_cons]
        exact ⟨fun h => (hout _ h) (List.mem_cons_self _ _), hnd⟩
      · intro k hk
        simp only [List.map_cons, List.mem_cons] at hk
        rcases hk with rfl | hk
        · exact hx
        · exact fun h => (hout k hk) (List.mem_cons_of_mem _ h)

/-- The surviving key column has no duplicates. -/
theorem dedupeOn_nodup_keys (key : α → K) (l : List α) :
    ((dedupeOn key l).map key).Nodup :=
  (dedupeOnAux_nodup_keys key l []).1

theorem dedupeOnAux_key_complete (key : α → K) (l : List α) (seen : List K)
    (k : K) (hk : k ∈ l.map key) (hs : k ∉ seen) :
    k ∈ (dedupeOnAux key l seen).map key := by
  induction l generalizing seen with
  | nil => cases hk
  | cons x xs ih =>
    simp only [List.map_cons, List.mem_cons] at hk
    simp only [dedupeOnAux]
    by_cases hx : key x ∈ seen
    · rw [if_pos hx]
      rcases hk with rfl | hk
      · exact absurd hx hs
      · exact ih seen hk hs
    · rw [if_neg hx]
      simp only [List.map_cons, List.mem_cons]
      rcases hk with rfl | hk
      · exact Or.inl rfl
      · by_cases hkx : k = key x
        · exact Or.inl hkx
        · exact Or.inr (ih (key x :: seen) hk (by
            simp only [List.mem_cons, not_or]
            exact ⟨hkx, hs⟩))

/-- No key is lost by deduplication. -/
theorem dedupeOn_key_complete (key : α → K) (l : List α) (k : K)
    (hk : k ∈ l.map key) : k ∈ (dedupeOn key l).map key :=
  dedupeOnAux_key_complete key l [] k hk (by simp)

end DedupLemmas

/-! ## Interval-matcher lemmas -/

theorem lookup_append_some (l1 l2 : List (Nat × PyStr)) (x : Nat) (g : PyStr)
    (h : l1.lookup x = some g) : (l1 ++ l2).lookup x = some g := by
  induction l1 with
  | nil => simp [List.lookup] at h
  | cons a l1 ih =>
    obtain ⟨k, v⟩ := a
    rw [List.lookup_cons] at h
    rw [List.cons_append, List.lookup_cons]
    cases hx : x == k with
    | true => rw [hx] at h; exact h
    | false => rw [hx] at h; exact ih h

theorem lookup_append_none (l1 l2 : List (Nat × PyStr)) (x : Nat)
    (h : l1.lookup x = none) : (l1 ++ l2).lookup x = l2.lookup x := by
  induction l1 with
  | nil => rfl
  | cons a l1 ih =>
    obtain ⟨k, v⟩ := a
    rw [List.lookup_cons] at h
    rw [List.cons_append, List.lookup_cons]
    cases hx : x == k with
    | true => rw [hx] at h; simp at h
    | false => rw [hx] at h; exact ih h

theorem lookup_none_not_mem (gd : List (Nat × PyStr)) (x : Nat)
    (h : gd.lookup x = none) : x ∉ gd.map (fun p => p.1) := by
  induction gd with
  | nil => simp
  | cons a gd ih =>
    obtain ⟨k, v⟩ := a
    rw [List.lookup_cons] at h
    cases hx : x == k with
    | true => rw [hx] at h; simp at h
    | false =>
      rw [hx] at h
      simp only [List.map_cons, List.mem_cons, not_or]
      exact ⟨by simpa using hx, ih h⟩

theorem assignRecord_lookup_some (gd : List (Nat × PyStr)) (g g' : PyStr)
    (x y : Nat) (h : gd.lookup x = some g) :
    (assignRecord gd g' y).lookup x = some g := by
  rw [assignRecord]
  split
  · exact h
  · exact lookup_append_some _ _ _ _ h

theorem assignRecord_lookup_self (gd : List (Nat × PyStr)) (g : PyStr)
    (x : Nat) (h : gd.lookup x = none) :
    (assignRecord gd g x).lookup x = some g := by
  rw [assignRecord, h]
  simp only [Option.isSome_none, Bool.false_eq_true, if_false]
  rw [lookup_append_none _ _ _ h, List.lookup_cons]
  simp

theorem assignRecord_lookup_other (gd : List (Nat × PyStr)) (g : PyStr)
    (x y : Nat) (hxy : x ≠ y) :
    (assignRecord gd g y).lookup x = gd.lookup x := by
  rw [assignRecord]
  split
  · rfl
  · cases h : gd.lookup x with
    | some g0 => exact lookup_append_some _ _ _ _ h
    | none =>
      rw [lookup_append_none _ _ _ h, List.lookup_cons]
      cases hxy2 : x == y with
      | true => exact absurd (by simpa using hxy2) hxy
      | false => rfl

theorem foldl_assign_lookup_some (ys : List Nat) (gd : List (Nat × PyStr))
    (g g' : PyStr) (x : Nat) (h : gd.lookup x = some g) :
    (ys.foldl (fun gd y => assignRecord gd g' y) gd).lookup x = some g := by
  induction ys generalizing gd with
  | nil => exact h
  | cons y ys ih =>
    rw [List.foldl_cons]
    exact ih _ (assignRecord_lookup_some _ _ _ _ _ h)

theorem foldl_assign_lookup_mem (ys : List Nat) (gd : List (Nat × PyStr))
    (g : PyStr) (x : Nat) (h : gd.lookup x = none) (hx : x ∈ ys) :
    (ys.foldl (fun gd y => assignRecord gd g y) gd).lookup x = some g := by
  induction ys generalizing gd with
  | nil => cases hx
  | cons y ys ih =>
    rw [List.foldl_cons]
    by_cases hxy : x = y
    · subst hxy
      exact foldl_assign_lookup_some _ _ _ _ _ (assignRecord_lookup_self _ _ _ h)
    · have hx' : x ∈ ys := by
        rcases List.mem_cons.mp hx with h1 | h1
        · exact absurd h1 hxy
        · exact h1
      exact ih _ (by rw [assignRecord_lookup_other _ _ _ _ hxy]; exact h) hx'

theorem foldl_assign_lookup_not_mem (ys : List Nat) (gd : List (Nat × PyStr))
    (g : PyStr) (x : Nat) (hx : x ∉ ys) :
    (ys.foldl (fun gd y => assignRecord gd g y) gd).lookup x = gd.lookup x := by
  induction ys generalizing gd with
  | nil => rfl
  | cons y ys ih =>
    rw [List.foldl_cons]
    have hxy : x ≠ y := fun h => hx (h ▸ List.mem_cons_self y ys)
    rw [ih _ (fun h => hx (List.mem_cons_of_mem y h)),
      assignRecord_lookup_other _ _ _ _ hxy]

theorem mem_matchedIdx_of (w : WindowRow) (rvChr : List (Nat × FreqRow))
    (x : Nat) (r : FreqRow) (hmem : (x, r) ∈ rvChr)
    (hb : betweenTest w r = true) : x ∈ matchedIdx w rvChr := by
  rw [matchedIdx]
  exact List.mem_map.mpr ⟨(x, r), List.mem_filter.mpr ⟨hmem, hb⟩, rfl⟩

theorem of_mem_matchedIdx (w : WindowRow) (rvChr : List (Nat × FreqRow))
    (x : Nat) (hx : x ∈ matchedIdx w rvChr) :
    ∃ r', (x, r') ∈ rvChr ∧ betweenTest w r' = true := by
  rw [matchedIdx] at hx
  obtain ⟨⟨p1, p2⟩, hp, hpx⟩ := List.mem_map.mp hx
  obtain ⟨hpmem, hpb⟩ := List.mem_filter.mp hp
  simp only at hpx
  subst hpx
  exact ⟨p2, hpmem, hpb⟩

theorem label_unique {β : Type} (l : List (Nat × β)) (x : Nat) (a b : β)
    (hnd : (l.map (fun p => p.1)).Nodup)
    (ha : (x, a) ∈ l) (hb : (x, b) ∈ l) : a = b := by
  induction l with
  | nil => cases ha
  | cons p l ih =>
    simp only [List.map_cons, List.nodup_cons] at hnd
    rcases List.mem_cons.mp ha with h1 | h1 <;>
      rcases List.mem_cons.mp hb with h2 | h2
    · rw [← h1] at h2; exact (Prod.mk.injEq _ _ _ _ ▸ h2).2.symm ▸ rfl
    · exfalso
      exact hnd.1 (List.mem_map.mpr ⟨(x, b), h2, by rw [← h1]⟩)
    · exfalso
      exact hnd.1 (List.mem_map.mpr ⟨(x, a), h1, by rw [← h2]⟩)
    · exact ih hnd.2 h1 h2

theorem assignWindow_lookup_some (gd : List (Nat × PyStr)) (w : WindowRow)
    (rvChr : List (Nat × FreqRow)) (x : Nat) (g : PyStr)
    (h : gd.lookup x = some g) :
    (assignWindow gd w rvChr).lookup x = some g :=
  foldl_assign_lookup_some _ _ _ _ _ h

theorem assignWindow_lookup_not_mem (gd : List (Nat × PyStr)) (w : WindowRow)
    (rvChr : List (Nat × FreqRow)) (x : Nat)
    (hx : x ∉ matchedIdx w rvChr) :
    (assignWindow gd w rvChr).lookup x = gd.lookup x :=
  foldl_assign_lookup_not_mem _ _ _ _ hx

theorem assignChr_lookup_some (gd : List (Nat × PyStr))
    (ws : List WindowRow) (rvChr : List (Nat × FreqRow)) (x : Nat) (g : PyStr)
    (h : gd.lookup x = some g) :
    (assignChr gd ws rvChr).lookup x = some g := by
  induction ws generalizing gd with
  | nil => exact h
  | cons w ws ih =>
    rw [assignChr, List.foldl_cons]
    exact ih _ (assignWindow_lookup_some _ _ _ _ _ h)

theorem assignChr_lookup_not_mem (gd : List (Nat × PyStr))
    (ws : List WindowRow) (rvChr : List (Nat × FreqRow)) (x : Nat)
    (hx : x ∉ rvChr.map (fun p => p.1)) :
    (assignChr gd ws rvChr).lookup x = gd.lookup x := by
  induction ws generalizing gd with
  | nil => rfl
  | cons w ws ih =>
    rw [assignChr, List.foldl_cons]
    have hxm : x ∉ matchedIdx w rvChr := by
      intro hm
      obtain ⟨r', hr', _⟩ := of_mem_matchedIdx w rvChr x hm
      exact hx (List.mem_map.mpr ⟨(x, r'), hr', rfl⟩)
    have h1 := ih (assignWindow gd w rvChr)
    have h2 := assignWindow_lookup_not_mem gd w rvChr x hxm
    exact h1.trans h2

theorem assignChr_first_win (gd : List (Nat × PyStr)) (ws : List WindowRow)
    (rvChr : List (Nat × FreqRow)) (x : Nat) (r : FreqRow) (w₀ : WindowRow)
    (hnd : (rvChr.map (fun p => p.1)).Nodup)
    (hmem : (x, r) ∈ rvChr)
    (hnone : gd.lookup x = none)
    (hfind : ws.find? (fun w => betweenTest w r) = some w₀) :
    (assignChr gd ws rvChr).lookup x = some w₀.gene := by
  induction ws generalizing gd with
  | nil => cases hfind
  | cons w ws ih =>
    rw [List.find?_cons] at hfind
    rw [assignChr, List.foldl_cons]
    cases hb : betweenTest w r with
    | true =>
      rw [hb] at hfind
      injection hfind with hw
      subst hw
      apply assignChr_lookup_some
      exact foldl_assign_lookup_mem _ _ _ _ hnone
        (mem_matchedIdx_of w rvChr x r hmem hb)
    | false =>
      rw [hb] at hfind
      have hxm : x ∉ matchedIdx w rvChr := by
        intro hm
        obtain ⟨r', hr', hb'⟩ := of_mem_matchedIdx w rvChr x hm
        rw [label_unique rvChr x r' r hnd hr' hmem] at hb'
        rw [hb'] at hb
        cases hb
      exact ih _ (by rw [assignWindow_lookup_not_mem _ _ _ _ hxm]; exact hnone)
        hfind

/-- In the full chromosome-partitioned pass, a record overlapped by at
least one window is assigned the gene of the first window of the input
table that matches it. -/
theorem buildGeneDict_first_win (ws : List WindowRow)
    (rvs : List (Nat × FreqRow)) (x : Nat) (r : FreqRow) (w₀ : WindowRow)
    (hnd : (rvs.map (fun p => p.1)).Nodup)
    (hmem : (x, r) ∈ rvs)
    (hfind : ws.find? (fun w => matchTest w r) = some w₀) :
    (buildGeneDict ws rvs).lookup x = some w₀.gene := by
  have hw0mem : w₀ ∈ ws := List.mem_of_find?_eq_some hfind
  have hw0match : matchTest w₀ r = true :=
    @List.find?_some _ (fun w => matchTest w r) w₀ ws hfind
  have hc : w₀.chrom = r.chrom := by
    rw [matchTest, Bool.and_eq_true] at hw0match
    exact eq_of_beq hw0match.1
  have hcmem : r.chrom ∈ chrListOf ws := by
    apply dedupeOn_key_complete
    exact List.mem_map.mpr ⟨w₀, hw0mem, hc⟩
  have hcnd : (chrListOf ws).Nodup := dedupeOn_nodup_keys _ _
  obtain ⟨pre, post, hsplit⟩ := List.append_of_mem hcmem
  rw [buildGeneDict, hsplit, List.foldl_append, List.foldl_cons]
  have hprene : ∀ chr ∈ pre, chr ≠ r.chrom := by
    intro chr hchr heq
    rw [hsplit] at hcnd
    rw [List.nodup_append] at hcnd
    exact hcnd.2.2 (heq ▸ hchr) (List.mem_cons_self _ _)
  have hxnot : ∀ chr, chr ≠ r.chrom →
      x ∉ (rvs.filter (fun p => p.2.chrom == chr)).map (fun p => p.1) := by
    intro chr hne hmm
    obtain ⟨⟨p1, p2⟩, hpmem, hpx⟩ := List.mem_map.mp hmm
    obtain ⟨hpin, hpc⟩ := List.mem_filter.mp hpmem
    simp only at hpx hpc
    rw [hpx] at hpin
    rw [label_unique rvs x p2 r hnd hpin hmem] at hpc
    exact hne (eq_of_beq hpc).symm
  have hpre : ∀ (l : List PyStr) (gd : List (Nat × PyStr)),
      (∀ chr ∈ l, chr ≠ r.chrom) → gd.lookup x = none →
      (l.foldl (chrStep ws rvs) gd).lookup x = none := by
    intro l
    induction l with
    | nil => intro gd _ h; exact h
    | cons c l ihl =>
      intro gd hl h
      rw [List.foldl_cons]
      apply ihl _ (fun chr hchr => hl chr (List.mem_cons_of_mem _ hchr))
      rw [chrStep, assignChr_lookup_not_mem _ _ _ _
        (hxnot c (hl c (List.mem_cons_self _ _)))]
      exact h
  have hg0 : ((pre.foldl (chrStep ws rvs) []).lookup x) = none :=
    hpre pre [] hprene rfl
  have hpost : ∀ (l : List PyStr) (gd : List (Nat × PyStr)) (g : PyStr),
      gd.lookup x = some g →
      (l.foldl (chrStep ws rvs) gd).lookup x = some g := by
    intro l
    induction l with
    | nil => intro gd g h; exact h
    | cons c l ihl =>
      intro gd g h
      rw [List.foldl_cons]
      exact ihl _ _ (assignChr_lookup_some _ _ _ _ _ h)
  apply hpost
  rw [chrStep]
  apply assignChr_first_win _ _ _ x r w₀ _ _ hg0
  · rw [List.find?_filter]
    rw [show (fun w : WindowRow => decide ((w.chrom == r.chrom) = true ∧
        betweenTest w r = true)) = fun w => matchTest w r by
      funext w
      rw [matchTest]
      cases hh : w.chrom == r.chrom <;> cases hb : betweenTest w r <;>
        simp [hh, hb]]
    exact hfind
  · exact List.Nodup.sublist ((List.filter_sublist _).map _) hnd
  · exact List.mem_filter.mpr ⟨hmem, by simp⟩

theorem assignRecord_nodup (gd : List (Nat × PyStr)) (g : PyStr) (y : Nat)
    (h : (gd.map (fun p => p.1)).Nodup) :
    ((assignRecord gd g y).map (fun p => p.1)).Nodup := by
  rw [assignRecord]
  split
  · exact h
  · next hns =>
    have hnone : gd.lookup y = none := by
      cases hl : gd.lookup y with
      | none => rfl
      | some v => rw [hl] at hns; simp at hns
    rw [List.map_append, List.nodup_append]
    refine ⟨h, by simp, ?_⟩
    intro a ha hb
    simp only [List.map_cons, List.map_nil, List.mem_singleton] at hb
    subst hb
    exact lookup_none_not_mem gd a hnone ha

theorem foldl_assign_nodup (ys : List Nat) (gd : List (Nat × PyStr))
    (g : PyStr) (h : (gd.map (fun p => p.1)).Nodup) :
    (((ys.foldl (fun gd y => assignRecord gd g y) gd)).map
      (fun p => p.1)).Nodup := by
  induction ys generalizing gd with
  | nil => exact h
  | cons y ys ih =>
    rw [List.foldl_cons]
    exact ih _ (assignRecord_nodup _ _ _ h)

theorem assignChr_nodup (gd : List (Nat × PyStr)) (ws : List WindowRow)
    (rvChr : List (Nat × FreqRow))
    (h : (gd.map (fun p => p.1)).Nodup) :
    ((assignChr gd ws rvChr).map (fun p => p.1)).Nodup := by
  induction ws generalizing gd with
  | nil => exact h
  | cons w ws ih =>
    rw [assignChr, List.foldl_cons]
    exact ih _ (foldl_assign_nodup _ _ _ h)

/-- The gene dictionary binds each record label at most once. -/
theorem buildGeneDict_nodup (ws : List WindowRow)
    (rvs : List (Nat × FreqRow)) :
    ((buildGeneDict ws rvs).map (fun p => p.1)).Nodup := by
  rw [buildGeneDict]
  have : ∀ (l : List PyStr) (gd : List (Nat × PyStr)),
      (gd.map (fun p => p.1)).Nodup →
      ((l.foldl (chrStep ws rvs) gd).map (fun p => p.1)).Nodup := by
    intro l
    induction l with
    | nil => intro gd h; exact h
    | cons c l ihl =>
      intro gd h
      rw [List.foldl_cons]
      exact ihl _ (assignChr_nodup _ _ _ h)
  exact this _ [] (by simp)

/-! ## Aligner lemmas -/

theorem contains_eq_decide_mem {α : Type} [BEq α] [LawfulBEq α]
    (l : List α) (a : α) : l.contains a = decide (a ∈ l) :=
  List.elem_eq_mem a l

theorem map_filter_comp {α β : Type} (f : α → β) (p : β → Bool) (l : List α) :
    (l.filter (fun a => p (f a))).map f = (l.map f).filter p := by
  induction l with
  | nil => rfl
  | cons a l ih =>
    simp only [List.filter_cons, List.map_cons]
    cases hp : p (f a) <;> simp [hp, ih]

/-- The surviving frequency-side keys are the frequency keys that also
occur on the call side, in frequency-table order. -/
theorem alignFreqSide_map_key (rv : List AnnRow) (vdf : List (Nat × VcfRow)) :
    (alignFreqSide rv vdf).map annKey =
      (rv.map annKey).filter
        (fun k => (vdf.map (fun q => vcfKey q.2)).contains k) :=
  map_filter_comp annKey _ rv

/-- The surviving call-side keys are the call keys that also occur on
the frequency side, in call-table order. -/
theorem alignCallSide_map_key (rv : List AnnRow) (vdf : List (Nat × VcfRow)) :
    (alignCallSide rv vdf).map (fun q => vcfKey q.2) =
      (vdf.map (fun q => vcfKey q.2)).filter
        (fun k => (rv.map annKey).contains k) := by
  rw [alignCallSide, map_filter_comp (fun q => vcfKey q.2) _ vdf]
  apply List.filter_congr
  intro k hk
  rw [contains_eq_decide_mem, contains_eq_decide_mem]
  rw [decide_eq_decide]
  rw [alignFreqSide_map_key, List.mem_filter]
  constructor
  · exact fun h => h.1
  · intro h
    refine ⟨h, ?_⟩
    rw [contains_eq_decide_mem]
    exact decide_eq_true hk

theorem length_filter_contains_comm (A B : List PyStr)
    (hA : A.Nodup) (hB : B.Nodup) :
    (A.filter (fun k => B.contains k)).length
      = (B.filter (fun k => A.contains k)).length := by
  have key : ∀ (X Y : List PyStr), X.Nodup →
      (X.filter (fun k => Y.contains k)).length
        = (X.toFinset ∩ Y.toFinset).card := by
    intro X Y hX
    rw [← List.toFinset_card_of_nodup (hX.filter _), List.toFinset_filter]
    congr 1
    ext k
    simp [contains_eq_decide_mem]
  rw [key A B hA, key B A hB, Finset.inter_comm]

/-! ## Report-writer lemmas -/

theorem mapM_eq_none {α β : Type} (f : α → Option β) (l : List α) (x : α)
    (hx : x ∈ l) (hf : f x = none) : l.mapM f = none := by
  induction l with
  | nil => cases hx
  | cons a l ih =>
    rw [List.mapM_cons]
    rcases List.mem_cons.mp hx with rfl | hx'
    · rw [hf]; rfl
    · rw [ih hx']
      cases f a <;> rfl

theorem rowFor_none (acc : List (PyStr × List PyStr)) (k : PyStr)
    (h : (splitOnChar ':' k).length ≠ 2) : rowFor acc k = none := by
  rw [rowFor]
  match hsp : splitOnChar ':' k with
  | [] => rfl
  | [a] => rfl
  | [a, b] => rw [hsp] at h; simp at h
  | a :: b :: c :: r => rfl

theorem rowFor_some (acc : List (PyStr × List PyStr)) (k g i : PyStr)
    (h : splitOnChar ':' k = [g, i]) : rowFor acc k = some (rowVal acc k) := by
  rw [rowFor, h, rowVal, h]
  rfl

theorem mapM_rowFor_map (acc : List (PyStr × List PyStr)) (l : List PyStr)
    (h : ∀ k ∈ l, ∃ g i, splitOnChar ':' k = [g, i]) :
    l.mapM (rowFor acc) = some (l.map (rowVal acc)) := by
  induction l with
  | nil => rfl
  | cons a l ih =>
    obtain ⟨g, i, hgi⟩ := h a (List.mem_cons_self a l)
    rw [List.mapM_cons, rowFor_some acc a g i hgi,
      ih (fun k hk => h k (List.mem_cons_of_mem a hk))]
    rfl

theorem writeReport_none (acc : List (PyStr × List PyStr)) (k : PyStr)
    (hk : k ∈ acc.map (fun p => p.1)) (hrow : rowFor acc k = none) :
    writeReport acc = none := by
  rw [writeReport]
  have hks : k ∈ List.insertionSort (fun a b : PyStr => a ≤ b)
      (acc.map (fun p => p.1)) :=
    (List.perm_insertionSort _ _).mem_iff.mpr hk
  rw [mapM_eq_none (rowFor acc) _ k hks hrow]
  rfl

/-! ## Claims -/

/-- Claim C1, counterexample: the window `c:[100,200)` and the
same-chromosome record at 1-based position 202 have
`pos0 = 201 = stop + 1`, which the claim says must NOT match; the
Interval Matcher nonetheless assigns the record to the window's gene,
because pandas `between(start, stop + 1)` is inclusive on both ends. -/
theorem C1_interval_counterexample :
    (buildGeneDict [c1Window] [(0, c1RecordPastStop)]).lookup 0
      = some ("G1".toList) ∧
    c1RecordPastStop.pos - 1 = c1Window.stop + 1 := by decide

/-- Claim C1, amended: for a window and a same-chromosome record, the
Interval Matcher assigns the record to the window exactly when
`start ≤ pos0 ≤ stop + 1`, i.e. membership in the CLOSED interval
`[start, stop + 1]` (equivalently `[start, stop + 2)`), not in
`[start, stop + 1)`. -/
theorem C1_interval_amended (w : WindowRow) (i : Nat) (r : FreqRow)
    (h : r.chrom = w.chrom) :
    (buildGeneDict [w] [(i, r)]).lookup i = some w.gene ↔
      (w.start ≤ r.pos - 1 ∧ r.pos - 1 ≤ w.stop + 1) := by
  have hb : buildGeneDict [w] [(i, r)] =
      if betweenTest w r then [(i, w.gene)] else [] := by
    rcases hbt : betweenTest w r with _ | _
    · simp [buildGeneDict, chrListOf, chrStep, dedupeOn, dedupeOnAux,
        assignChr, assignWindow, matchedIdx, assignRecord, h, hbt, List.filter]
    · simp [buildGeneDict, chrListOf, chrStep, dedupeOn, dedupeOnAux,
        assignChr, assignWindow, matchedIdx, assignRecord, h, hbt,
        List.filter, List.lookup]
  rw [hb]
  by_cases hbt : betweenTest w r = true
  · rw [if_pos hbt]
    simp only [betweenTest, Bool.and_eq_true, decide_eq_true_iff] at hbt
    simp [List.lookup_cons, hbt]
  · rw [if_neg hbt]
    simp only [betweenTest, Bool.and_eq_true, decide_eq_true_iff,
      not_and] at hbt
    constructor
    · intro hl; simp [List.lookup] at hl
    · intro hc; exact absurd hc (by tauto)

/-- Claim C1, witness: the record at 1-based position 150 lies inside
the window `c:[100,200)` and is assigned its gene. -/
theorem C1_interval_witness :
    (buildGeneDict [c1Window] [(0, c1RecordInside)]).lookup 0
      = some c1Window.gene :=
  (C1_interval_amended c1Window 0 c1RecordInside (by decide)).mpr (by decide)

/-- Claim C2, counterexample: with `ref="A:5.0"`, `alt="T:5.0"` (an
exact frequency tie) the Allele Resolver selects the REF letters "A"
as the minor allele, not the alt letters "T" as the claim states: the
`else` branch sets `major = alt`, `minor = ref`. -/
theorem C2_tie_counterexample :
    suffixVal? ("A:5.0".toList) = suffixVal? ("T:5.0".toList) ∧
    (resolveAllele ("A:5.0".toList) ("T:5.0".toList)).map Resolved.minor
      = some ("A".toList) ∧
    ("A".toList : PyStr) ≠ "T".toList := by decide

/-- Claim C2, amended: on an exact tie of the parsed numeric suffixes,
the Allele Resolver selects REF as the minor (rare) allele and ALT as
the major allele, with rare allele index 0. -/
theorem C2_tie_amended (ref alt : PyStr) (dr da : Dec)
    (hr : suffixVal? ref = some dr) (ha : suffixVal? alt = some da)
    (heq : dr.toRat = da.toRat) :
    resolveAllele ref alt =
      some ⟨(splitOnChar ':' alt).headI, (splitOnChar ':' ref).headI, 0⟩ := by
  simp only [suffixVal?, Option.bind_eq_some] at hr ha
  obtain ⟨r1s, hr1, hpr⟩ := hr
  obtain ⟨a1s, ha1, hpa⟩ := ha
  have hlt : Dec.lt da dr = false := by
    rcases hfb : Dec.lt da dr with _ | _
    · rfl
    · exact absurd (heq ▸ (Dec.lt_iff_toRat_lt da dr).mp hfb) (lt_irrefl _)
  rw [resolveAllele, hr1, ha1]
  simp [hpr, hpa, hlt]

/-- Claim C2, witness: at the tie `ref="A:5.0"`, `alt="T:5.0"`, the
resolver output is major "T", minor "A", rare index 0. -/
theorem C2_tie_witness :
    resolveAllele ("A:5.0".toList) ("T:5.0".toList)
      = some ⟨"T".toList, "A".toList, 0⟩ :=
  (C2_tie_amended ("A:5.0".toList) ("T:5.0".toList) ⟨50, 1⟩ ⟨50, 1⟩
    (by decide) (by decide) rfl).trans (by decide)

/-- Claim C3, counterexample: two deduplicated input tables holding
the same two keys in opposite orders.  Both surviving tables have
length 2, but at index 0 the frequency side has key `$c:$1` while the
call side has key `$c:$2` — the aligner filters each table in its own
order and never re-resolves by key, so positional key equality does
NOT hold regardless of input order. -/
theorem C3_alignment_counterexample :
    dedupeOn annKey c3Freq = c3Freq ∧
    dedupeOn (fun p => vcfKey p.2) c3VcfCrossed = c3VcfCrossed ∧
    (alignFreqSide c3Freq c3VcfCrossed).length = 2 ∧
    (alignCallSide c3Freq c3VcfCrossed).length = 2 ∧
    ((alignFreqSide c3Freq c3VcfCrossed)[0]?).map annKey
      = some ("$c:$1".toList) ∧
    ((alignCallSide c3Freq c3VcfCrossed)[0]?).map (fun q => vcfKey q.2)
      = some ("$c:$2".toList) ∧
    ("$c:$1".toList : PyStr) ≠ "$c:$2".toList := by decide

/-- Claim C3, amended: if the two input tables enumerate their common
keys in the same relative order, then after the Table Aligner the
surviving key sequences coincide, hence the two tables have equal
length and carry the same `chrom:pos` key at every index. -/
theorem C3_alignment_amended (rv : List AnnRow) (vdf : List (Nat × VcfRow))
    (h : (rv.map annKey).filter
          (fun k => (vdf.map (fun q => vcfKey q.2)).contains k)
       = (vdf.map (fun q => vcfKey q.2)).filter
          (fun k => (rv.map annKey).contains k)) :
    (alignFreqSide rv vdf).length = (alignCallSide rv vdf).length ∧
    ∀ i : Nat, ((alignFreqSide rv vdf)[i]?).map annKey
       = ((alignCallSide rv vdf)[i]?).map (fun q => vcfKey q.2) := by
  have M : (alignFreqSide rv vdf).map annKey
      = (alignCallSide rv vdf).map (fun q => vcfKey q.2) := by
    rw [alignFreqSide_map_key, alignCallSide_map_key, h]
  constructor
  · have := congrArg List.length M
    simpa using this
  · intro i
    rw [← List.getElem?_map, ← List.getElem?_map, M]

/-- Claim C3, witness: with the common keys in the same relative order
on both sides, the aligned tables agree in length and in the key at
index 0. -/
theorem C3_alignment_witness :
    (alignFreqSide c3Freq c3VcfSame).length
      = (alignCallSide c3Freq c3VcfSame).length ∧
    ((alignFreqSide c3Freq c3VcfSame)[0]?).map annKey
      = ((alignCallSide c3Freq c3VcfSame)[0]?).map (fun q => vcfKey q.2) :=
  ⟨(C3_alignment_amended c3Freq c3VcfSame (by decide)).1,
   (C3_alignment_amended c3Freq c3VcfSame (by decide)).2 0⟩

/-- Claim C4: a record overlapped by one or more windows is assigned
the gene of the first matching window in input window-table order
(`find?` returns the first match), and the gene dictionary binds each
record label at most once. -/
theorem C4_first_gene_wins (ws : List WindowRow) (rvs : List (Nat × FreqRow))
    (x : Nat) (r : FreqRow) (w₀ : WindowRow)
    (hnd : (rvs.map (fun p => p.1)).Nodup)
    (hmem : (x, r) ∈ rvs)
    (hfind : ws.find? (fun w => matchTest w r) = some w₀) :
    (buildGeneDict ws rvs).lookup x = some w₀.gene ∧
    ((buildGeneDict ws rvs).map (fun p => p.1)).Nodup :=
  ⟨buildGeneDict_first_win ws rvs x r w₀ hnd hmem hfind,
    buildGeneDict_nodup ws rvs⟩

/-- Claim C4, witness: two windows for genes G1 and G2 both overlap
position 180; the record is assigned G1, the gene of the window that
appears first in the table. -/
theorem C4_first_gene_wins_witness :
    (buildGeneDict c4Windows c4Records).lookup 0 = some ("G1".toList) ∧
    ((buildGeneDict c4Windows c4Records).map (fun p => p.1)).Nodup :=
  C4_first_gene_wins c4Windows c4Records 0
    ⟨"c".toList, 180, 2, 4, "A:0.9".toList, "T:0.1".toList⟩
    ⟨"c".toList, 100, 200, "G1".toList⟩
    (by decide) (by decide) (by decide)

/-- Claim C5: the end-to-end scenario — one outlier gene G1 with
window `chrom1:[100,200)`, one frequency record at `chrom1:150` with
`ref="A:0.9"`, `alt="T:0.1"`, one call row at the same coordinate with
sample1 genotype `{0,1}` and sample2 genotype `{0,0}` — produces
exactly the header and the single data row
`G1\tsample1\t$chrom1:$150:$A:$T`. -/
theorem C5_end_to_end :
    runPipeline ["G1".toList] c5Tss c5Freq c5Vcf c5Genotype c5Samples
      = some [headerLine, "G1\tsample1\t$chrom1:$150:$A:$T".toList] := by
  decide

/-- Claim C6: when every accumulator key splits in exactly two parts
on `":"`, the Report Writer emits the fixed header followed by exactly
one tab-separated row per key, with the keys sorted lexicographically
(code-point order on the concatenated `gene + ":" + individual`
string). -/
theorem C6_report_writer (acc : List (PyStr × List PyStr))
    (h : ∀ k ∈ acc.map (fun p => p.1), ∃ g i, splitOnChar ':' k = [g, i]) :
    writeReport acc = some (headerLine ::
      (List.insertionSort (fun a b : PyStr => a ≤ b)
        (acc.map (fun p => p.1))).map (rowVal acc)) ∧
    List.Sorted (fun a b : PyStr => a ≤ b)
      (List.insertionSort (fun a b : PyStr => a ≤ b)
        (acc.map (fun p => p.1))) ∧
    (List.insertionSort (fun a b : PyStr => a ≤ b)
      (acc.map (fun p => p.1))).Perm (acc.map (fun p => p.1)) := by
  refine ⟨?_, List.sorted_insertionSort _ _, List.perm_insertionSort _ _⟩
  rw [writeReport]
  rw [mapM_rowFor_map acc _ (fun k hk =>
    h k ((List.perm_insertionSort _ _).mem_iff.mp hk))]
  rfl

/-- Claim C6, witness: an accumulator whose keys arrive out of order is
written as the header followed by its rows in sorted key order. -/
theorem C6_report_writer_witness :
    writeReport c6Acc
      = some [headerLine, "A\tx\tv2".toList, "B\ty\tv1".toList] := by
  have h := C6_report_writer c6Acc (by
    intro k hk
    simp only [c6Acc, List.map_cons, List.map_nil, List.mem_cons,
      List.not_mem_nil, or_false] at hk
    rcases hk with rfl | rfl
    · exact ⟨"B".toList, "y".toList, by decide⟩
    · exact ⟨"A".toList, "x".toList, by decide⟩)
  exact h.1.trans (by decide)

/-- Claim C7: if no proximity window survives the outlier-gene filter,
the pipeline still succeeds and its output is the header line alone. -/
theorem C7_zero_outliers (outliers : List PyStr) (tss : List WindowRow)
    (rareVar : List FreqRow) (vcfRows : List VcfRow)
    (genotype : List (List (List Int))) (samples : List PyStr)
    (h : tss.filter (fun w => outliers.contains w.gene) = []) :
    runPipeline outliers tss rareVar vcfRows genotype samples =
      some [headerLine] := by
  rw [runPipeline, h]
  simp only [show buildGeneDict []
      (dedupeOn (fun p => freqKey p.2) rareVar.enum) = [] from rfl,
    List.map_nil, List.insertionSort, List.mapM_nil, Option.pure_def,
    Option.bind_eq_bind, Option.some_bind]
  have hv : alignCallSide []
      (dedupeOn (fun p => vcfKey p.2) vcfRows.enum) = [] := by
    rw [alignCallSide]
    refine List.filter_eq_nil_iff.mpr (fun q hq => ?_)
    simp [alignFreqSide]
  rw [hv]
  rfl

/-- Claim C7, witness: a window table whose only gene is not an
outlier yields the header-only output on concrete inputs. -/
theorem C7_zero_outliers_witness :
    runPipeline ["G1".toList] c7Tss c7Freq c7Vcf [[[0, 1]]] ["s1".toList]
      = some [headerLine] :=
  C7_zero_outliers _ _ _ _ _ _ (by decide)

/-- Claim C8: the Deduplicator (as run on the labelled frequency table
keyed by `chrom:pos`) returns a sublist of its input (original order
preserved), every surviving row is the FIRST input row carrying its
key, and the operation is idempotent. -/
theorem C8_dedup_first_idem (l : List (Nat × FreqRow)) :
    (dedupeOn (fun p => freqKey p.2) l).Sublist l ∧
    (∀ x ∈ dedupeOn (fun p => freqKey p.2) l,
      l.find? (fun y => freqKey y.2 == freqKey x.2) = some x) ∧
    dedupeOn (fun p => freqKey p.2) (dedupeOn (fun p => freqKey p.2) l)
      = dedupeOn (fun p => freqKey p.2) l :=
  ⟨dedupeOn_sublist _ _, fun x hx => dedupeOn_mem_first _ _ x hx,
    dedupeOn_idem _ _⟩

/-- Claim C8, witness: on a concrete table with a duplicated
coordinate key, deduplicating twice equals deduplicating once. -/
theorem C8_dedup_witness :
    dedupeOn (fun p => freqKey p.2) (dedupeOn (fun p => freqKey p.2) c8List)
      = dedupeOn (fun p => freqKey p.2) c8List :=
  (C8_dedup_first_idem c8List).2.2

/-- Claim C9: with both tables deduplicated (no duplicate keys), the
two mutual `isin` filters produce tables of equal length, so the
positional insertion of the gene column is always defined. -/
theorem C9_alignment_lengths (rv : List AnnRow) (vdf : List (Nat × VcfRow))
    (h1 : (rv.map annKey).Nodup)
    (h2 : (vdf.map (fun q => vcfKey q.2)).Nodup) :
    (alignFreqSide rv vdf).length = (alignCallSide rv vdf).length ∧
    (insertGenes (alignFreqSide rv vdf) (alignCallSide rv vdf)).isSome
      = true := by
  have hlen : (alignFreqSide rv vdf).length = (alignCallSide rv vdf).length := by
    have l1 := congrArg List.length (alignFreqSide_map_key rv vdf)
    have l2 := congrArg List.length (alignCallSide_map_key rv vdf)
    simp only [List.length_map] at l1 l2
    rw [l1, l2, length_filter_contains_comm _ _ h1 h2]
  refine ⟨hlen, ?_⟩
  rw [insertGenes, if_pos hlen]
  rfl

/-- Claim C9, witness: concrete deduplicated tables sharing one key
align to equal lengths and the gene insert succeeds. -/
theorem C9_alignment_witness :
    (alignFreqSide c9Freq c9Vcf).length = (alignCallSide c9Freq c9Vcf).length ∧
    (insertGenes (alignFreqSide c9Freq c9Vcf) (alignCallSide c9Freq c9Vcf)).isSome
      = true :=
  C9_alignment_lengths c9Freq c9Vcf (by decide) (by decide)

/-- Claim C10: if a gene or individual identifier itself contains
`":"`, the Report Writer's two-variable destructuring of the split key
fails and the writer aborts (`none`). -/
theorem C10_colon_key_crash (gene indiv : PyStr) (vs : List PyStr)
    (acc : List (PyStr × List PyStr))
    (hmem : (gene ++ ':' :: indiv, vs) ∈ acc)
    (hc : ':' ∈ gene ∨ ':' ∈ indiv) :
    writeReport acc = none := by
  have hk : (gene ++ ':' :: indiv) ∈ acc.map (fun p => p.1) :=
    List.mem_map.mpr ⟨(gene ++ ':' :: indiv, vs), hmem, rfl⟩
  apply writeReport_none acc _ hk
  apply rowFor_none
  rw [splitOnChar_append, List.length_append]
  have h1 := List.length_pos.mpr (splitOnChar_ne_nil ':' gene)
  have h2 := List.length_pos.mpr (splitOnChar_ne_nil ':' indiv)
  rcases hc with hc | hc
  · have := splitOnChar_length_ge_two ':' gene hc
    omega
  · have := splitOnChar_length_ge_two ':' indiv hc
    omega

/-- Claim C10, witness: a single accumulator entry whose gene part is
`"G:1"` makes the writer abort. -/
theorem C10_colon_key_crash_witness : writeReport c10Acc = none :=
  C10_colon_key_crash ("G:1".toList) ("ind".toList) (["v".toList]) c10Acc
    (by decide) (by decide)

end GIV
